import Mathlib

/-!
Verification of the geometric sampling and slice-extraction core of FSLeyes
(`fsleyes/gl/routines.py`): sample-point grids, the degenerate triangle-strip
tessellator, 2D slice generation, plane equations, unit-sphere tessellation
and volume subsampling.

Numeric arrays are embedded over `ℚ` (the source computes with IEEE floats;
all the properties considered here are exact algebraic facts about the
formulas, so exact rational arithmetic is the faithful idealisation).
Vectors of three components are a `Vec3` structure, affine 4×4 matrices are
a linear 3×3 part plus a translation (`Affine`), and fallible code paths
(`raise ValueError`) are `Except String`.
-/

set_option maxHeartbeats 1000000

/-- A 3-component coordinate vector (one row of an `N*3` numpy array). -/
structure Vec3 where
  x : ℚ
  y : ℚ
  z : ℚ
deriving DecidableEq, Repr

instance : Inhabited Vec3 := ⟨⟨0, 0, 0⟩⟩

/-- Read component `ax` (0, 1 or 2) of a vector: `v[ax]` on a numpy row. -/
def getAx (v : Vec3) (ax : ℕ) : ℚ :=
  if ax = 0 then v.x else if ax = 1 then v.y else v.z

/-- Write component `ax` (0, 1 or 2) of a vector: `v[ax] = q` on a numpy row. -/
def setAx (v : Vec3) (ax : ℕ) (q : ℚ) : Vec3 :=
  if ax = 0 then { v with x := q }
  else if ax = 1 then { v with y := q }
  else { v with z := q }

/-- An affine transformation between 3D coordinate spaces: the linear 3×3
    block (rows `r0 r1 r2`) and the translation column `t` of a 4×4
    homogeneous matrix. -/
structure Affine where
  r0 : Vec3
  r1 : Vec3
  r2 : Vec3
  t  : Vec3
deriving DecidableEq, Repr

/-- Dot product of two 3-vectors. -/
def dot3 (a b : Vec3) : ℚ := a.x * b.x + a.y * b.y + a.z * b.z

/-- `fsl.utils.transform.transform` applied to a single point: multiply the
    homogeneous column `(x, y, z, 1)` by the 4×4 matrix. -/
def Affine.apply (m : Affine) (v : Vec3) : Vec3 :=
  ⟨dot3 m.r0 v + m.t.x, dot3 m.r1 v + m.t.y, dot3 m.r2 v + m.t.z⟩

/-- The identity affine transformation. -/
def Affine.ident : Affine :=
  ⟨⟨1, 0, 0⟩, ⟨0, 1, 0⟩, ⟨0, 0, 1⟩, ⟨0, 0, 0⟩⟩

/-- Composition of affine transformations: `(m.comp n).apply v = m.apply
    (n.apply v)` (product of the 4×4 matrices). -/
def Affine.comp (m n : Affine) : Affine :=
  ⟨⟨m.r0.x * n.r0.x + m.r0.y * n.r1.x + m.r0.z * n.r2.x,
    m.r0.x * n.r0.y + m.r0.y * n.r1.y + m.r0.z * n.r2.y,
    m.r0.x * n.r0.z + m.r0.y * n.r1.z + m.r0.z * n.r2.z⟩,
   ⟨m.r1.x * n.r0.x + m.r1.y * n.r1.x + m.r1.z * n.r2.x,
    m.r1.x * n.r0.y + m.r1.y * n.r1.y + m.r1.z * n.r2.y,
    m.r1.x * n.r0.z + m.r1.y * n.r1.z + m.r1.z * n.r2.z⟩,
   ⟨m.r2.x * n.r0.x + m.r2.y * n.r1.x + m.r2.z * n.r2.x,
    m.r2.x * n.r0.y + m.r2.y * n.r1.y + m.r2.z * n.r2.y,
    m.r2.x * n.r0.z + m.r2.y * n.r1.z + m.r2.z * n.r2.z⟩,
   m.apply n.t⟩

theorem Affine.comp_apply (m n : Affine) (v : Vec3) :
    (m.comp n).apply v = m.apply (n.apply v) := by
  simp only [Affine.comp, Affine.apply, dot3, Vec3.mk.injEq]
  refine ⟨by ring, by ring, by ring⟩

/-- Minimum of a nonempty list of rationals (`numpy.min`); `0` on `[]`. -/
def qListMin : List ℚ → ℚ
  | []      => 0
  | a :: r  => r.foldl min a

/-- Maximum of a nonempty list of rationals (`numpy.max`); `0` on `[]`. -/
def qListMax : List ℚ → ℚ
  | []      => 0
  | a :: r  => r.foldl max a

/-- The eight corners of the box `[lo.x,hi.x] × [lo.y,hi.y] × [lo.z,hi.z]`. -/
def boxCorners (lo hi : Vec3) : List Vec3 :=
  [⟨lo.x, lo.y, lo.z⟩, ⟨lo.x, lo.y, hi.z⟩, ⟨lo.x, hi.y, lo.z⟩, ⟨lo.x, hi.y, hi.z⟩,
   ⟨hi.x, lo.y, lo.z⟩, ⟨hi.x, lo.y, hi.z⟩, ⟨hi.x, hi.y, lo.z⟩, ⟨hi.x, hi.y, hi.z⟩]

/-- Modelled from the spec: `fsl.utils.transform.axisBounds` (external fslpy
    dependency, not part of this repository's sources).  Per the spec's data
    model, under the `centre` origin convention a voxel at integer
    coordinate `x` occupies `[x-0.5, x+0.5)`, so a grid of extent `s` spans
    `[-0.5, s-0.5]`; under `corner` it spans `[0, s]`.  The bounds along one
    display axis are obtained by transforming all 8 corners of that box
    through the affine and taking the extrema (`boundary=None`: no offset).
    An unrecognised origin raises `ValueError`. -/
def axisBounds (shape : Vec3) (xform : Affine) (ax : ℕ) (origin : String) :
    Except String (ℚ × ℚ) := do
  let (lo, hi) ←
    if origin = "centre" then
      pure ((⟨-(1/2), -(1/2), -(1/2)⟩ : Vec3),
            (⟨shape.x - 1/2, shape.y - 1/2, shape.z - 1/2⟩ : Vec3))
    else if origin = "corner" then
      pure ((⟨0, 0, 0⟩ : Vec3), shape)
    else
      throw ("Invalid origin value: " ++ origin)
  let vals := (boxCorners lo hi).map (fun c => getAx (xform.apply c) ax)
  pure (qListMin vals, qListMax vals)

/-- `planeEquation` from `routines.py`: the coefficients `(a, b, c, d)`
    computed by the 3×3 determinant expansion from three points. -/
def planeEquation (p1 p2 p3 : Vec3) : ℚ × ℚ × ℚ × ℚ :=
  ((p1.y * (p2.z - p3.z)) + (p2.y * (p3.z - p1.z)) + (p3.y * (p1.z - p2.z)),
   (p1.z * (p2.x - p3.x)) + (p2.z * (p3.x - p1.x)) + (p3.z * (p1.x - p2.x)),
   (p1.x * (p2.y - p3.y)) + (p2.x * (p3.y - p1.y)) + (p3.x * (p1.y - p2.y)),
   -((p1.x * ((p2.y * p3.z) - (p3.y * p2.z))) +
     (p2.x * ((p3.y * p1.z) - (p1.y * p3.z))) +
     (p3.x * ((p1.y * p2.z) - (p2.y * p1.z)))))

/-- A point satisfies `a*x + b*y + c*z = d` for a coefficient tuple. -/
def onPlaneEq (eq : ℚ × ℚ × ℚ × ℚ) (p : Vec3) : Prop :=
  eq.1 * p.x + eq.2.1 * p.y + eq.2.2.1 * p.z = eq.2.2.2

/-- C7 counterexample: at the three points `(0,0,1), (1,0,1), (0,1,1)` (the
    plane `z = 1`), `planeEquation` returns `(0, 0, 1, -1)`, and the point
    `(0,0,1)` does NOT satisfy `a*x + b*y + c*z = d` with the returned `d`
    (it satisfies `z = 1 ≠ -1 = d`), refuting the claim as stated. -/
theorem planeEquation_eq_d_counterexample :
    planeEquation ⟨0, 0, 1⟩ ⟨1, 0, 1⟩ ⟨0, 1, 1⟩ = (0, 0, 1, -1) ∧
    ¬ onPlaneEq (planeEquation ⟨0, 0, 1⟩ ⟨1, 0, 1⟩ ⟨0, 1, 1⟩) ⟨0, 0, 1⟩ := by
  constructor
  · norm_num [planeEquation, Prod.mk.injEq]
  · norm_num [planeEquation, onPlaneEq]

/-- C7 (amended): for every three points `p1 p2 p3`, the returned
    coefficients `(a,b,c,d)` satisfy `a*x + b*y + c*z + d = 0` (that is,
    `a*x + b*y + c*z = -d`, the Bourke normal form, rather than `= d`) at
    each of the three points; and `planeEquation((0,0,0),(1,0,0),(0,1,0))`
    is exactly `(0,0,1,0)` (the XY plane). -/
theorem planeEquation_contains_points (p1 p2 p3 : Vec3) :
    ((planeEquation p1 p2 p3).1 * p1.x + (planeEquation p1 p2 p3).2.1 * p1.y +
       (planeEquation p1 p2 p3).2.2.1 * p1.z + (planeEquation p1 p2 p3).2.2.2 = 0) ∧
    ((planeEquation p1 p2 p3).1 * p2.x + (planeEquation p1 p2 p3).2.1 * p2.y +
       (planeEquation p1 p2 p3).2.2.1 * p2.z + (planeEquation p1 p2 p3).2.2.2 = 0) ∧
    ((planeEquation p1 p2 p3).1 * p3.x + (planeEquation p1 p2 p3).2.1 * p3.y +
       (planeEquation p1 p2 p3).2.2.1 * p3.z + (planeEquation p1 p2 p3).2.2.2 = 0) ∧
    planeEquation ⟨0, 0, 0⟩ ⟨1, 0, 0⟩ ⟨0, 1, 0⟩ = (0, 0, 1, 0) := by
  refine ⟨?_, ?_, ?_, by norm_num [planeEquation, Prod.mk.injEq]⟩ <;>
    (simp only [planeEquation]; ring)

/-- Add `0.5` to every component of a vector (`voxCoords + 0.5`). -/
def addHalf (v : Vec3) : Vec3 := ⟨v.x + 1/2, v.y + 1/2, v.z + 1/2⟩

/-- Componentwise division of a coordinate row by the data shape
    (`voxCoords / dataShape`, numpy broadcasting). -/
def divShape (v s : Vec3) : Vec3 := ⟨v.x / s.x, v.y / s.y, v.z / s.z⟩

/-- `slice2D` from `routines.py`: vertices of a slice through a grid of
    shape `dataShape` parallel to the `xax`/`yax` plane at depth `zpos`,
    together with the corresponding voxel and texture coordinates.
    The source raises `ValueError` for an unrecognised `geometry` or
    `origin`; note the `origin` argument reaches `axisBounds` (which
    validates it) before the `geometry` check runs. -/
def slice2D (dataShape : Vec3) (xax yax : ℕ) (zpos : ℚ)
    (voxToDisplayMat displayToVoxMat : Affine) (geometry origin : String) :
    Except String (List Vec3 × List Vec3 × List Vec3) := do
  let zax := 3 - xax - yax
  let (xmin, xmax) ← axisBounds dataShape voxToDisplayMat xax origin
  let (ymin, ymax) ← axisBounds dataShape voxToDisplayMat yax origin
  let mkv : ℚ → ℚ → Vec3 := fun a b => setAx (setAx ⟨0, 0, 0⟩ xax a) yax b
  let vertices0 ←
    if geometry = "triangles" then
      pure [mkv xmin ymin, mkv xmin ymax, mkv xmax ymin,
            mkv xmax ymin, mkv xmin ymax, mkv xmax ymax]
    else if geometry = "square" then
      pure [mkv xmin ymin, mkv xmax ymin, mkv xmax ymax, mkv xmin ymax]
    else
      throw ("Unrecognised geometry type: " ++ geometry)
  let vertices := vertices0.map (fun v => setAx v zax zpos)
  let voxCoords := vertices.map displayToVoxMat.apply
  if origin = "centre" then
    let voxCoords := voxCoords.map addHalf
    let texCoords := voxCoords.map (fun v => divShape v dataShape)
    pure (vertices, voxCoords, texCoords)
  else if origin = "corner" then
    let texCoords := voxCoords.map (fun v => divShape (addHalf v) dataShape)
    pure (vertices, voxCoords, texCoords)
  else
    throw ("Unrecognised origin: " ++ origin)

/-- C6: `slice2D` succeeds exactly when both enum arguments are recognised:
    it raises `ValueError` (here: `Except.error`) whenever `geometry` is not
    `triangles`/`square` or `origin` is not `centre`/`corner` (never
    substituting a default), and returns normally for recognised values of
    both. -/
theorem slice2D_ok_iff_valid_enums (dataShape : Vec3) (xax yax : ℕ)
    (zpos : ℚ) (v2d d2v : Affine) (geometry origin : String) :
    (slice2D dataShape xax yax zpos v2d d2v geometry origin).isOk = true ↔
      ((geometry = "triangles" ∨ geometry = "square") ∧
       (origin = "centre" ∨ origin = "corner")) := by
  by_cases hg1 : geometry = "triangles" <;>
    by_cases hg2 : geometry = "square" <;>
      by_cases ho1 : origin = "centre" <;>
        by_cases ho2 : origin = "corner" <;>
          simp [slice2D, axisBounds, hg1, hg2, ho1, ho2, Except.isOk,
                Except.toBool, bind, Except.bind, pure, Except.pure, throw,
                throwThe, MonadExceptOf.throw]

theorem getAx_addHalf (v : Vec3) (ax : ℕ) :
    getAx (addHalf v) ax = getAx v ax + 1/2 := by
  unfold getAx addHalf; split_ifs <;> rfl

theorem getAx_divShape (v s : Vec3) (ax : ℕ) :
    getAx (divShape v s) ax = getAx v ax / getAx s ax := by
  unfold getAx divShape; split_ifs <;> rfl

theorem getD_map_lt {α β : Type} [Inhabited α] [Inhabited β] (f : α → β) :
    ∀ (l : List α) (k : ℕ), k < l.length →
      (l.map f).getD k default = f (l.getD k default)
  | _ :: _, 0, _ => rfl
  | _ :: t, k + 1, h => getD_map_lt f t k (by simpa using h)
  | [], _, h => absurd h (by simp)

/-- On the `origin='centre'` path, the voxel coordinates returned by
    `slice2D` are the inverse-transformed vertices plus `0.5`, and the
    texture coordinates divide those by the data shape. -/
theorem slice2D_centre_components
    (dataShape : Vec3) (xax yax : ℕ) (zpos : ℚ) (v2d d2v : Affine)
    (geometry : String) (verts vox tex : List Vec3)
    (h : slice2D dataShape xax yax zpos v2d d2v geometry "centre" =
      Except.ok (verts, vox, tex)) :
    vox = verts.map (fun v => addHalf (d2v.apply v)) ∧
    tex = verts.map (fun v => divShape (addHalf (d2v.apply v)) dataShape) := by
  by_cases hg1 : geometry = "triangles"
  · simp [slice2D, axisBounds, hg1, bind, Except.bind, pure, Except.pure] at h
    obtain ⟨h1, h2, h3⟩ := h
    subst h1; subst h2; subst h3
    constructor <;> simp [List.map_map, Function.comp]
  · by_cases hg2 : geometry = "square"
    · simp [slice2D, axisBounds, hg1, hg2, bind, Except.bind, pure,
            Except.pure] at h
      obtain ⟨h1, h2, h3⟩ := h
      subst h1; subst h2; subst h3
      constructor <;> simp [List.map_map, Function.comp]
    · simp [slice2D, axisBounds, hg1, hg2, bind, Except.bind, pure,
            Except.pure, throw, throwThe, MonadExceptOf.throw] at h

/-- On the `origin='corner'` path, the voxel coordinates returned by
    `slice2D` are the raw inverse-transformed vertices, and the texture
    coordinates are `(voxCoords + 0.5) / dataShape`. -/
theorem slice2D_corner_components
    (dataShape : Vec3) (xax yax : ℕ) (zpos : ℚ) (v2d d2v : Affine)
    (geometry : String) (verts vox tex : List Vec3)
    (h : slice2D dataShape xax yax zpos v2d d2v geometry "corner" =
      Except.ok (verts, vox, tex)) :
    vox = verts.map (fun v => d2v.apply v) ∧
    tex = verts.map (fun v => divShape (addHalf (d2v.apply v)) dataShape) := by
  by_cases hg1 : geometry = "triangles"
  · simp [slice2D, axisBounds, hg1, bind, Except.bind, pure, Except.pure] at h
    obtain ⟨h1, h2, h3⟩ := h
    subst h1; subst h2; subst h3
    constructor <;> simp [List.map_map, Function.comp]
  · by_cases hg2 : geometry = "square"
    · simp [slice2D, axisBounds, hg1, hg2, bind, Except.bind, pure,
            Except.pure] at h
      obtain ⟨h1, h2, h3⟩ := h
      subst h1; subst h2; subst h3
      constructor <;> simp [List.map_map, Function.comp]
    · simp [slice2D, axisBounds, hg1, hg2, bind, Except.bind, pure,
            Except.pure, throw, throwThe, MonadExceptOf.throw] at h

theorem strNeSquareTriangles : ¬ (("square" : String) = "triangles") := by
  decide

theorem strNeCornerCentre : ¬ (("corner" : String) = "centre") := by
  decide

/-- C2: for `origin='centre'`, re-deriving the voxel coordinates from the
    returned display vertices (apply the precomputed inverse affine
    `displayToVoxMat`, then the centre-convention `+0.5` offset) matches the
    returned `voxCoords` to within the floating-point tolerance `1e-5`
    (in exact arithmetic the two are equal, so the difference is `0`). -/
theorem slice2D_centre_roundtrip
    (dataShape : Vec3) (xax yax : ℕ) (zpos : ℚ) (v2d d2v : Affine)
    (geometry : String) (verts vox tex : List Vec3) (k ax : ℕ)
    (_hinv : Affine.comp d2v v2d = Affine.ident)
    (h : slice2D dataShape xax yax zpos v2d d2v geometry "centre" =
      Except.ok (verts, vox, tex))
    (hk : k < verts.length) :
    |getAx (addHalf (d2v.apply (verts.getD k default))) ax -
       getAx (vox.getD k default) ax| ≤ 1 / 100000 := by
  obtain ⟨hvox, -⟩ := slice2D_centre_components dataShape xax yax zpos v2d d2v
    geometry verts vox tex h
  rw [hvox, getD_map_lt _ verts k hk]
  simp

/-- C2 witness: a concrete successful `centre` slice (shape `(1,1,1)`,
    identity affines, square geometry) on which the round-trip difference of
    vertex 0, axis 0 is within tolerance. -/
theorem slice2D_centre_roundtrip_witness :
    |getAx (addHalf (Affine.ident.apply
        (([⟨-(1/2), -(1/2), 0⟩, ⟨1/2, -(1/2), 0⟩,
           ⟨1/2, 1/2, 0⟩, ⟨-(1/2), 1/2, 0⟩] : List Vec3).getD 0 default))) 0 -
       getAx (([⟨0, 0, 1/2⟩, ⟨1, 0, 1/2⟩,
                ⟨1, 1, 1/2⟩, ⟨0, 1, 1/2⟩] : List Vec3).getD 0 default) 0| ≤
      1 / 100000 :=
  slice2D_centre_roundtrip ⟨1, 1, 1⟩ 0 1 0 Affine.ident Affine.ident "square"
    [⟨-(1/2), -(1/2), 0⟩, ⟨1/2, -(1/2), 0⟩, ⟨1/2, 1/2, 0⟩, ⟨-(1/2), 1/2, 0⟩]
    [⟨0, 0, 1/2⟩, ⟨1, 0, 1/2⟩, ⟨1, 1, 1/2⟩, ⟨0, 1, 1/2⟩]
    [⟨0, 0, 1/2⟩, ⟨1, 0, 1/2⟩, ⟨1, 1, 1/2⟩, ⟨0, 1, 1/2⟩]
    0 0
    (by norm_num [Affine.comp, Affine.ident, Affine.apply, dot3, Vec3.mk.injEq])
    (by norm_num [slice2D, axisBounds, boxCorners, qListMin, qListMax, getAx,
                  setAx, Affine.apply, Affine.ident, dot3, addHalf, divShape,
                  min_def, max_def, bind, Except.bind, pure, Except.pure,
                  Prod.mk.injEq, Vec3.mk.injEq, strNeSquareTriangles])
    (by norm_num)

/-- C10: for `origin='centre'`, the returned `voxCoords` are the
    inverse-transformed display vertices plus `0.5` on every axis (not the
    raw inverse-transform result), and the returned texture coordinates
    satisfy `texCoords = voxCoords / dataShape` exactly, element-wise. -/
theorem slice2D_centre_vox_tex
    (dataShape : Vec3) (xax yax : ℕ) (zpos : ℚ) (v2d d2v : Affine)
    (geometry : String) (verts vox tex : List Vec3) (k ax : ℕ)
    (h : slice2D dataShape xax yax zpos v2d d2v geometry "centre" =
      Except.ok (verts, vox, tex))
    (hk : k < verts.length) :
    vox.getD k default = addHalf (d2v.apply (verts.getD k default)) ∧
    getAx (tex.getD k default) ax =
      getAx (vox.getD k default) ax / getAx dataShape ax := by
  obtain ⟨hvox, htex⟩ := slice2D_centre_components dataShape xax yax zpos v2d
    d2v geometry verts vox tex h
  subst hvox; subst htex
  rw [getD_map_lt _ verts k hk, getD_map_lt _ verts k hk]
  exact ⟨rfl, getAx_divShape _ _ _⟩

/-- C10 witness: the concrete `centre` slice of shape `(1,1,1)` with
    identity affines; vertex 1 has `voxCoords = vertex + 0.5` and
    `texCoords = voxCoords / shape`. -/
theorem slice2D_centre_vox_tex_witness :
    (([⟨0, 0, 1/2⟩, ⟨1, 0, 1/2⟩, ⟨1, 1, 1/2⟩, ⟨0, 1, 1/2⟩] : List Vec3).getD
        1 default =
      addHalf (Affine.ident.apply
        (([⟨-(1/2), -(1/2), 0⟩, ⟨1/2, -(1/2), 0⟩,
           ⟨1/2, 1/2, 0⟩, ⟨-(1/2), 1/2, 0⟩] : List Vec3).getD 1 default))) ∧
    getAx (([⟨0, 0, 1/2⟩, ⟨1, 0, 1/2⟩,
             ⟨1, 1, 1/2⟩, ⟨0, 1, 1/2⟩] : List Vec3).getD 1 default) 0 =
      getAx (([⟨0, 0, 1/2⟩, ⟨1, 0, 1/2⟩,
               ⟨1, 1, 1/2⟩, ⟨0, 1, 1/2⟩] : List Vec3).getD 1 default) 0 /
        getAx (⟨1, 1, 1⟩ : Vec3) 0 :=
  slice2D_centre_vox_tex ⟨1, 1, 1⟩ 0 1 0 Affine.ident Affine.ident "square"
    [⟨-(1/2), -(1/2), 0⟩, ⟨1/2, -(1/2), 0⟩, ⟨1/2, 1/2, 0⟩, ⟨-(1/2), 1/2, 0⟩]
    [⟨0, 0, 1/2⟩, ⟨1, 0, 1/2⟩, ⟨1, 1, 1/2⟩, ⟨0, 1, 1/2⟩]
    [⟨0, 0, 1/2⟩, ⟨1, 0, 1/2⟩, ⟨1, 1, 1/2⟩, ⟨0, 1, 1/2⟩]
    1 0
    (by norm_num [slice2D, axisBounds, boxCorners, qListMin, qListMax, getAx,
                  setAx, Affine.apply, Affine.ident, dot3, addHalf, divShape,
                  min_def, max_def, bind, Except.bind, pure, Except.pure,
                  Prod.mk.injEq, Vec3.mk.injEq, strNeSquareTriangles])
    (by norm_num)

/-- C5 counterexample: shape `(1,1,1)`, identity affines, `origin='corner'`,
    slice at `zpos = 1`.  Vertex 2 of the square has voxel coordinates
    `(1,1,1)`, inside the grid's voxel-corner bounds `[0, shape] = [0,1]` on
    every axis, yet its texture coordinate on axis 0 is `3/2 ∉ [0,1]`,
    refuting the claim as stated (the code maps `[-0.5, shape-0.5]`, not
    `[0, shape]`, onto `[0,1]`). -/
theorem slice2D_corner_texRange_counterexample :
    slice2D ⟨1, 1, 1⟩ 0 1 1 Affine.ident Affine.ident "square" "corner" =
      Except.ok ([⟨0, 0, 1⟩, ⟨1, 0, 1⟩, ⟨1, 1, 1⟩, ⟨0, 1, 1⟩],
                 [⟨0, 0, 1⟩, ⟨1, 0, 1⟩, ⟨1, 1, 1⟩, ⟨0, 1, 1⟩],
                 [⟨1/2, 1/2, 3/2⟩, ⟨3/2, 1/2, 3/2⟩,
                  ⟨3/2, 3/2, 3/2⟩, ⟨1/2, 3/2, 3/2⟩]) ∧
    (0 ≤ getAx (⟨1, 1, 1⟩ : Vec3) 0 ∧
      getAx (⟨1, 1, 1⟩ : Vec3) 0 ≤ getAx (⟨1, 1, 1⟩ : Vec3) 0) ∧
    ¬ (getAx (⟨3/2, 3/2, 3/2⟩ : Vec3) 0 ≤ 1) := by
  refine ⟨?_, ⟨by norm_num [getAx], by norm_num [getAx]⟩, by norm_num [getAx]⟩
  norm_num [slice2D, axisBounds, boxCorners, qListMin, qListMax, getAx,
            setAx, Affine.apply, Affine.ident, dot3, addHalf, divShape,
            min_def, max_def, bind, Except.bind, pure, Except.pure,
            Prod.mk.injEq, Vec3.mk.injEq, strNeSquareTriangles,
            strNeCornerCentre]

/-- C5 (amended): for `origin='corner'` and a positive shape extent, every
    texture coordinate of a vertex whose voxel coordinates lie within the
    grid's voxel-corner bounds `[0, shape]` lies in
    `[0, 1 + 0.5/shape]` on that axis (the upper bound `1` of the claim is
    exceeded by up to half a texel: `texCoords = (voxCoords + 0.5)/shape`). -/
theorem slice2D_corner_texRange
    (dataShape : Vec3) (xax yax : ℕ) (zpos : ℚ) (v2d d2v : Affine)
    (geometry : String) (verts vox tex : List Vec3) (k ax : ℕ)
    (h : slice2D dataShape xax yax zpos v2d d2v geometry "corner" =
      Except.ok (verts, vox, tex))
    (hk : k < verts.length)
    (hshape : 0 < getAx dataShape ax)
    (hlo : 0 ≤ getAx (vox.getD k default) ax)
    (hhi : getAx (vox.getD k default) ax ≤ getAx dataShape ax) :
    0 ≤ getAx (tex.getD k default) ax ∧
    getAx (tex.getD k default) ax ≤ 1 + 1 / (2 * getAx dataShape ax) := by
  obtain ⟨hvox, htex⟩ := slice2D_corner_components dataShape xax yax zpos v2d
    d2v geometry verts vox tex h
  subst hvox; subst htex
  rw [getD_map_lt _ verts k hk] at hlo hhi
  rw [getD_map_lt _ verts k hk, getAx_divShape, getAx_addHalf]
  constructor
  · exact div_nonneg (by linarith) (le_of_lt hshape)
  · rw [div_le_iff₀ hshape]
    have hs : (1 + 1 / (2 * getAx dataShape ax)) * getAx dataShape ax =
        getAx dataShape ax + 1 / 2 := by
      field_simp
      ring
    rw [hs]
    linarith

/-- C5 witness: the concrete `corner` slice of shape `(1,1,1)` with identity
    affines at `zpos = 1`; vertex 0 has voxel coordinates `(0,0,1)` inside
    the corner bounds, and its axis-0 texture coordinate `1/2` lies in
    `[0, 1 + 0.5/1]`. -/
theorem slice2D_corner_texRange_witness :
    0 ≤ getAx (([⟨1/2, 1/2, 3/2⟩, ⟨3/2, 1/2, 3/2⟩, ⟨3/2, 3/2, 3/2⟩,
                 ⟨1/2, 3/2, 3/2⟩] : List Vec3).getD 0 default) 0 ∧
    getAx (([⟨1/2, 1/2, 3/2⟩, ⟨3/2, 1/2, 3/2⟩, ⟨3/2, 3/2, 3/2⟩,
             ⟨1/2, 3/2, 3/2⟩] : List Vec3).getD 0 default) 0 ≤
      1 + 1 / (2 * getAx (⟨1, 1, 1⟩ : Vec3) 0) :=
  slice2D_corner_texRange ⟨1, 1, 1⟩ 0 1 1 Affine.ident Affine.ident "square"
    [⟨0, 0, 1⟩, ⟨1, 0, 1⟩, ⟨1, 1, 1⟩, ⟨0, 1, 1⟩]
    [⟨0, 0, 1⟩, ⟨1, 0, 1⟩, ⟨1, 1, 1⟩, ⟨0, 1, 1⟩]
    [⟨1/2, 1/2, 3/2⟩, ⟨3/2, 1/2, 3/2⟩, ⟨3/2, 3/2, 3/2⟩, ⟨1/2, 3/2, 3/2⟩]
    0 0
    (by norm_num [slice2D, axisBounds, boxCorners, qListMin, qListMax, getAx,
                  setAx, Affine.apply, Affine.ident, dot3, addHalf, divShape,
                  min_def, max_def, bind, Except.bind, pure, Except.pure,
                  Prod.mk.injEq, Vec3.mk.injEq, strNeSquareTriangles,
                  strNeCornerCentre])
    (by norm_num)
    (by norm_num [getAx])
    (by norm_num [getAx])
    (by norm_num [getAx])

/-- `numpy.linspace a b n`: `n` evenly spaced values from `a` to `b`
    inclusive (`[a]` when `n = 1`, `[]` when `n = 0`). -/
def linspace (a b : ℚ) (n : ℕ) : List ℚ :=
  if n = 0 then []
  else if n = 1 then [a]
  else (List.range n).map (fun i => a + i * ((b - a) / ((n : ℚ) - 1)))

/-- `calculateSamplePoints` from `routines.py`: a uniform grid of sample
    points covering the image bounding box along the `xax`/`yax` plane.
    The sample counts are `np.floor` of extent over resolution, with NO
    clamping; the per-axis step is then readjusted so the samples span the
    box exactly, and sample centres are laid out by `linspace`/`meshgrid`
    (row-major, `worldY` outer).  When a count is `0`, numpy produces an
    `inf` step and an empty `linspace`; here division by zero yields `0`
    and `linspace _ _ 0 = []` — the observable result (no sample points) is
    the same. -/
def calculateSamplePoints (shape resolution : Vec3) (xform : Affine)
    (xax yax : ℕ) (origin : String) :
    Except String (List Vec3 × ℚ × ℚ × ℤ × ℤ) := do
  let xres := getAx resolution xax
  let yres := getAx resolution yax
  let (xmin, xmax) ← axisBounds shape xform xax origin
  let (ymin, ymax) ← axisBounds shape xform yax origin
  let xNumSamples : ℤ := Int.floor ((xmax - xmin) / xres)
  let yNumSamples : ℤ := Int.floor ((ymax - ymin) / yres)
  let xres2 := (xmax - xmin) / (xNumSamples : ℚ)
  let yres2 := (ymax - ymin) / (yNumSamples : ℚ)
  let worldX := linspace (xmin + xres2 / 2) (xmax - xres2 / 2) xNumSamples.toNat
  let worldY := linspace (ymin + yres2 / 2) (ymax - yres2 / 2) yNumSamples.toNat
  let coords := worldY.flatMap
    (fun wy => worldX.map (fun wx => setAx (setAx ⟨0, 0, 0⟩ xax wx) yax wy))
  pure (coords, xres2, yres2, xNumSamples, yNumSamples)

/-- C3 counterexample: shape `(1,1,1)`, identity affine, resolution `2`
    (larger than the axis extent `1`), `origin='centre'`: the code returns
    sample counts `0` (and no sample points), whereas the claimed clamped
    formula `max 1 ⌊extent/res⌋` gives `1`.  No clamping exists in the
    code. -/
theorem calculateSamplePoints_clamp_counterexample :
    calculateSamplePoints ⟨1, 1, 1⟩ ⟨2, 2, 2⟩ Affine.ident 0 1 "centre" =
      Except.ok ([], 0, 0, 0, 0) ∧
    (0 : ℤ) ≠ max 1 ⌊((1 : ℚ)) / 2⌋ := by
  constructor
  · norm_num [calculateSamplePoints, axisBounds, boxCorners, linspace,
              qListMin, qListMax, getAx, setAx, Affine.apply, Affine.ident,
              dot3, min_def, max_def, bind, Except.bind, pure, Except.pure,
              Prod.mk.injEq]
  · norm_num

/-- C3 (amended): the integer sample count per axis returned by
    `calculateSamplePoints` equals `⌊(max - min) / resolution⌋` for the
    axis bounds computed by `axisBounds` — with NO clamping to `≥ 1`: a
    resolution larger than the axis extent yields count `0` (and an empty
    sample grid), as exhibited by the counterexample. -/
theorem calculateSamplePoints_count
    (shape resolution : Vec3) (xform : Affine) (xax yax : ℕ) (origin : String)
    (coords : List Vec3) (xr yr : ℚ) (xn yn : ℤ) (xmin xmax ymin ymax : ℚ)
    (hbx : axisBounds shape xform xax origin = Except.ok (xmin, xmax))
    (hby : axisBounds shape xform yax origin = Except.ok (ymin, ymax))
    (h : calculateSamplePoints shape resolution xform xax yax origin =
      Except.ok (coords, xr, yr, xn, yn)) :
    xn = ⌊(xmax - xmin) / getAx resolution xax⌋ ∧
    yn = ⌊(ymax - ymin) / getAx resolution yax⌋ := by
  simp [calculateSamplePoints, hbx, hby, bind, Except.bind, pure,
        Except.pure] at h
  exact ⟨h.2.2.2.1.symm, h.2.2.2.2.symm⟩

/-- C3 witness: shape `(1,1,1)`, identity, resolution `1`, `centre`: the
    call succeeds with both counts equal to `⌊1/1⌋ = 1`. -/
theorem calculateSamplePoints_count_witness :
    (1 : ℤ) = ⌊((1 / 2 : ℚ) - (-(1 / 2))) / getAx (⟨1, 1, 1⟩ : Vec3) 0⌋ ∧
    (1 : ℤ) = ⌊((1 / 2 : ℚ) - (-(1 / 2))) / getAx (⟨1, 1, 1⟩ : Vec3) 1⌋ :=
  calculateSamplePoints_count ⟨1, 1, 1⟩ ⟨1, 1, 1⟩ Affine.ident 0 1 "centre"
    [⟨0, 0, 0⟩] 1 1 1 1 (-(1 / 2)) (1 / 2) (-(1 / 2)) (1 / 2)
    (by norm_num [axisBounds, boxCorners, qListMin, qListMax, getAx,
                  Affine.apply, Affine.ident, dot3, min_def, max_def, bind,
                  Except.bind, pure, Except.pure, Prod.mk.injEq])
    (by norm_num [axisBounds, boxCorners, qListMin, qListMax, getAx,
                  Affine.apply, Affine.ident, dot3, min_def, max_def, bind,
                  Except.bind, pure, Except.pure, Prod.mk.injEq])
    (by norm_num [calculateSamplePoints, axisBounds, boxCorners, linspace,
                  qListMin, qListMax, getAx, setAx, Affine.apply,
                  Affine.ident, dot3, min_def, max_def, bind, Except.bind,
                  pure, Except.pure, Prod.mk.injEq, Vec3.mk.injEq])

/-- C4 counterexample: `calculateSamplePoints((4,4,4), identity, axes (0,1),
    resolution 1, origin='centre')` does return `xcount = ycount = 4` and 16
    points, but the bounding box is `[-0.5, 3.5]` (voxel 0 centred at 0),
    not `[-2, 2]`: the X values are `{0,1,2,3}`, and the claimed value
    `-3/2` does not occur (first point has X = 0, and `0` is not among the
    claimed values `{-3/2, -1/2, 1/2, 3/2}`). -/
theorem calculateSamplePoints_concrete_counterexample :
    calculateSamplePoints ⟨4, 4, 4⟩ ⟨1, 1, 1⟩ Affine.ident 0 1 "centre" =
      Except.ok
        ([⟨0, 0, 0⟩, ⟨1, 0, 0⟩, ⟨2, 0, 0⟩, ⟨3, 0, 0⟩,
          ⟨0, 1, 0⟩, ⟨1, 1, 0⟩, ⟨2, 1, 0⟩, ⟨3, 1, 0⟩,
          ⟨0, 2, 0⟩, ⟨1, 2, 0⟩, ⟨2, 2, 0⟩, ⟨3, 2, 0⟩,
          ⟨0, 3, 0⟩, ⟨1, 3, 0⟩, ⟨2, 3, 0⟩, ⟨3, 3, 0⟩], 1, 1, 4, 4) ∧
    getAx (([⟨0, 0, 0⟩, ⟨1, 0, 0⟩, ⟨2, 0, 0⟩, ⟨3, 0, 0⟩,
             ⟨0, 1, 0⟩, ⟨1, 1, 0⟩, ⟨2, 1, 0⟩, ⟨3, 1, 0⟩,
             ⟨0, 2, 0⟩, ⟨1, 2, 0⟩, ⟨2, 2, 0⟩, ⟨3, 2, 0⟩,
             ⟨0, 3, 0⟩, ⟨1, 3, 0⟩, ⟨2, 3, 0⟩,
             ⟨3, 3, 0⟩] : List Vec3).getD 0 default) 0 = 0 ∧
    ¬ ((0 : ℚ) ∈ [(-3 / 2 : ℚ), -(1 / 2), 1 / 2, 3 / 2]) := by
  refine ⟨?_, by norm_num [getAx], by norm_num⟩
  have ht : Int.toNat (4 : ℤ) = 4 := by decide
  norm_num [calculateSamplePoints, axisBounds, boxCorners, linspace,
            qListMin, qListMax, getAx, setAx, Affine.apply, Affine.ident,
            dot3, min_def, max_def, bind, Except.bind, pure, Except.pure,
            Prod.mk.injEq, Vec3.mk.injEq, List.range_succ, ht,
            List.singleton, List.flatMap_cons, List.flatMap_nil]

/-- C4 (amended): the same concrete call returns `xcount = 4`, `ycount = 4`
    and 16 sample points, whose X coordinates are exactly `{0, 1, 2, 3}`
    (sample centres offset `0.5 * resolution` inward from the bounding box
    `[-0.5, 3.5]`, voxel 0 being centred at the origin). -/
theorem calculateSamplePoints_concrete :
    calculateSamplePoints ⟨4, 4, 4⟩ ⟨1, 1, 1⟩ Affine.ident 0 1 "centre" =
      Except.ok
        ([⟨0, 0, 0⟩, ⟨1, 0, 0⟩, ⟨2, 0, 0⟩, ⟨3, 0, 0⟩,
          ⟨0, 1, 0⟩, ⟨1, 1, 0⟩, ⟨2, 1, 0⟩, ⟨3, 1, 0⟩,
          ⟨0, 2, 0⟩, ⟨1, 2, 0⟩, ⟨2, 2, 0⟩, ⟨3, 2, 0⟩,
          ⟨0, 3, 0⟩, ⟨1, 3, 0⟩, ⟨2, 3, 0⟩, ⟨3, 3, 0⟩], 1, 1, 4, 4) ∧
    ([⟨0, 0, 0⟩, ⟨1, 0, 0⟩, ⟨2, 0, 0⟩, ⟨3, 0, 0⟩,
      ⟨0, 1, 0⟩, ⟨1, 1, 0⟩, ⟨2, 1, 0⟩, ⟨3, 1, 0⟩,
      ⟨0, 2, 0⟩, ⟨1, 2, 0⟩, ⟨2, 2, 0⟩, ⟨3, 2, 0⟩,
      ⟨0, 3, 0⟩, ⟨1, 3, 0⟩, ⟨2, 3, 0⟩,
      ⟨3, 3, 0⟩] : List Vec3).length = 16 ∧
    ([⟨0, 0, 0⟩, ⟨1, 0, 0⟩, ⟨2, 0, 0⟩, ⟨3, 0, 0⟩,
      ⟨0, 1, 0⟩, ⟨1, 1, 0⟩, ⟨2, 1, 0⟩, ⟨3, 1, 0⟩,
      ⟨0, 2, 0⟩, ⟨1, 2, 0⟩, ⟨2, 2, 0⟩, ⟨3, 2, 0⟩,
      ⟨0, 3, 0⟩, ⟨1, 3, 0⟩, ⟨2, 3, 0⟩,
      ⟨3, 3, 0⟩] : List Vec3).map (fun v => getAx v 0) =
      [0, 1, 2, 3, 0, 1, 2, 3, 0, 1, 2, 3, 0, 1, 2, 3] := by
  refine ⟨?_, by norm_num, by norm_num [getAx]⟩
  have ht : Int.toNat (4 : ℤ) = 4 := by decide
  norm_num [calculateSamplePoints, axisBounds, boxCorners, linspace,
            qListMin, qListMax, getAx, setAx, Affine.apply, Affine.ident,
            dot3, min_def, max_def, bind, Except.bind, pure, Except.pure,
            Prod.mk.injEq, Vec3.mk.injEq, List.range_succ, ht,
            List.singleton, List.flatMap_cons, List.flatMap_nil]

/-- `coords.reshape(ylen, xlen, 3)`: split a flat list of rows into `m`
    rows of `n` entries each. -/
def reshapeRows : ℕ → ℕ → List Vec3 → List (List Vec3)
  | 0, _, _ => []
  | m + 1, n, l => l.take n :: reshapeRows m n (l.drop n)

/-- One row of the world-coordinate array: append a copy of the last entry
    with `xpixdim` added on axis `xax` (the extra trailing column of
    `samplePointsToTriangleStrip`). -/
def extendRowWorld (xpixdim : ℚ) (xax : ℕ) (r : List Vec3) : List Vec3 :=
  r ++ r.getLast?.elim [] (fun v => [setAx v xax (getAx v xax + xpixdim)])

/-- Shift every entry of a row by `d` along axis `ax` (the in-place
    `+=`/`-=` column updates of `samplePointsToTriangleStrip`). -/
def shiftRow (ax : ℕ) (d : ℚ) (r : List Vec3) : List Vec3 :=
  r.map (fun v => setAx v ax (getAx v ax + d))

/-- The index list written by the `samplePointsToTriangleStrip` loop for one
    row `yi`: for each `xi ∈ [0, xlen]` the pair `(vi, vi + xlen + 1)` with
    `vi = yi*vertsPerRow + xi`, and after the `xi = xlen` pair (i.e. at the
    end of the row) the two degenerate indices when `yi < ylen - 1`. -/
def stripRowIndices (xlen ylen yi : ℕ) : List ℕ :=
  ((List.range (xlen + 1)).flatMap
    (fun xi => [yi * (2 * (xlen + 1)) + xi,
                yi * (2 * (xlen + 1)) + xi + xlen + 1])) ++
  (if yi + 1 < ylen then
    [yi * (2 * (xlen + 1)) + 2 * xlen + 1, (yi + 1) * (2 * (xlen + 1))]
  else [])

/-- The full index array of `samplePointsToTriangleStrip` (the loop over
    `yi ∈ range(ylen)`, positions taken in write order). -/
def stripIndices (xlen ylen : ℕ) : List ℕ :=
  (List.range ylen).flatMap (stripRowIndices xlen ylen)

/-- `samplePointsToTriangleStrip` from `routines.py`.  The source
    duplicates every grid row (`coords.repeat(2, 0)`), appends a trailing
    world column shifted by `xpixdim`, prepends a leading texture column,
    shifts all world X entries by `-xpixdim/2`, and shifts even duplicate
    rows (`[::2]`, the first copy of each grid row) by `-ypixdim/2` and odd
    rows (`[1::2]`, the second copy) by `+ypixdim/2` on the Y axis.  Here
    each grid row directly yields its two (first/second) world copies. -/
def samplePointsToTriangleStrip (coords : List Vec3)
    (xpixdim ypixdim : ℚ) (xlen ylen xax yax : ℕ) :
    List Vec3 × List Vec3 × List ℕ :=
  let grid := reshapeRows ylen xlen coords
  let worldRows := grid.flatMap (fun r =>
    let w := shiftRow xax (-(xpixdim / 2)) (extendRowWorld xpixdim xax r)
    [shiftRow yax (-(ypixdim / 2)) w, shiftRow yax (ypixdim / 2) w])
  let texRows := grid.flatMap (fun r => [r.take 1 ++ r, r.take 1 ++ r])
  (worldRows.flatten, texRows.flatten, stripIndices xlen ylen)

theorem length_flatMap_pair {α β : Type} (f g : α → β) :
    ∀ (l : List α), (l.flatMap (fun x => [f x, g x])).length = 2 * l.length
  | [] => by simp
  | a :: t => by
    simp [List.flatMap_cons, length_flatMap_pair f g t]
    omega

theorem flatten_length_const {α : Type} (c : ℕ) :
    ∀ (L : List (List α)), (∀ r ∈ L, r.length = c) →
      L.flatten.length = L.length * c
  | [], _ => by simp
  | r :: R, h => by
    have hr := h r (List.mem_cons_self r R)
    have hR := flatten_length_const c R (fun s hs => h s (List.mem_cons_of_mem _ hs))
    simp [hr, hR]
    ring

theorem reshapeRows_spec (n : ℕ) (hn : 0 < n) :
    ∀ (m : ℕ) (l : List Vec3), l.length = m * n →
      (reshapeRows m n l).length = m ∧
      ∀ r ∈ reshapeRows m n l, r.length = n
  | 0, l, _ => by simp [reshapeRows]
  | m + 1, l, hl => by
    have hmul : (m + 1) * n = m * n + n := by ring
    have hle : n ≤ l.length := by omega
    have htake : (l.take n).length = n := by
      rw [List.length_take]
      omega
    have hdrop : (l.drop n).length = m * n := by
      rw [List.length_drop]
      omega
    obtain ⟨ih1, ih2⟩ := reshapeRows_spec n hn m (l.drop n) hdrop
    refine ⟨by simp [reshapeRows, ih1], ?_⟩
    intro r hr
    rcases List.mem_cons.mp hr with h | h
    · rw [h]; exact htake
    · exact ih2 r h

theorem stripRowIndices_length (xlen ylen yi : ℕ) :
    (stripRowIndices xlen ylen yi).length =
      2 * (xlen + 1) + if yi + 1 < ylen then 2 else 0 := by
  unfold stripRowIndices
  rw [List.length_append, length_flatMap_pair, List.length_range]
  split <;> simp

theorem stripIndices_prefix_length (xlen ylen : ℕ) :
    ∀ m, m < ylen →
      ((List.range m).flatMap (stripRowIndices xlen ylen)).length =
        m * (2 * (xlen + 1) + 2)
  | 0, _ => by simp
  | m + 1, h => by
    rw [List.range_succ, List.flatMap_append, List.length_append,
        stripIndices_prefix_length xlen ylen m (by omega)]
    simp [stripRowIndices_length]
    have : m + 1 < ylen := h
    rw [if_pos this]
    ring

theorem stripIndices_length (xlen ylen : ℕ) (hy : 1 ≤ ylen) :
    (stripIndices xlen ylen).length = ylen * (2 * (xlen + 1) + 2) - 2 := by
  obtain ⟨m, rfl⟩ : ∃ m, ylen = m + 1 := ⟨ylen - 1, by omega⟩
  unfold stripIndices
  rw [List.range_succ, List.flatMap_append, List.length_append,
      stripIndices_prefix_length xlen (m + 1) m (by omega)]
  simp [stripRowIndices_length]
  have hD : m * (2 * (xlen + 1) + 2) + (2 * (xlen + 1)) =
      (m + 1) * (2 * (xlen + 1) + 2) - 2 := by
    have : (m + 1) * (2 * (xlen + 1) + 2) =
        m * (2 * (xlen + 1) + 2) + (2 * (xlen + 1) + 2) := by ring
    omega
  omega

theorem stripIndices_lt (xlen ylen : ℕ) (i : ℕ)
    (hi : i ∈ stripIndices xlen ylen) : i < (xlen + 1) * (2 * ylen) := by
  unfold stripIndices at hi
  rw [List.mem_flatMap] at hi
  obtain ⟨yi, hyi, hrow⟩ := hi
  rw [List.mem_range] at hyi
  have hmono : (yi + 1) * (2 * (xlen + 1)) ≤ ylen * (2 * (xlen + 1)) :=
    Nat.mul_le_mul_right _ (by omega)
  have hswap : ylen * (2 * (xlen + 1)) = (xlen + 1) * (2 * ylen) := by ring
  have hexp : (yi + 1) * (2 * (xlen + 1)) =
      yi * (2 * (xlen + 1)) + 2 * (xlen + 1) := by ring
  unfold stripRowIndices at hrow
  rw [List.mem_append] at hrow
  rcases hrow with hrow | hrow
  · rw [List.mem_flatMap] at hrow
    obtain ⟨xi, hxi, hmem⟩ := hrow
    rw [List.mem_range] at hxi
    have : i ≤ yi * (2 * (xlen + 1)) + xi + xlen + 1 := by
      rcases List.mem_cons.mp hmem with h | h
      · omega
      · rcases List.mem_cons.mp h with h2 | h2
        · omega
        · simp at h2
    omega
  · split at hrow
    · rcases List.mem_cons.mp hrow with h | h
      · omega
      · rcases List.mem_cons.mp h with h2 | h2
        · subst h2
          have := Nat.mul_le_mul_right (2 * (xlen + 1))
            (show yi + 1 ≤ ylen - 1 by omega)
          have hc : (ylen - 1) * (2 * (xlen + 1)) + 2 * (xlen + 1) =
              ylen * (2 * (xlen + 1)) := by
            obtain ⟨k, rfl⟩ : ∃ k, ylen = k + 1 := ⟨ylen - 1, by omega⟩
            simp
            ring
          omega
        · simp at h2
    · simp at hrow

theorem extendRowWorld_length (xpixdim : ℚ) (xax : ℕ) (r : List Vec3)
    (h : r ≠ []) : (extendRowWorld xpixdim xax r).length = r.length + 1 := by
  unfold extendRowWorld
  obtain ⟨v, hv⟩ := Option.isSome_iff_exists.mp (List.getLast?_isSome.mpr h)
  rw [hv]
  simp

/-- C1: for an `M×N` grid of sample points (`ylen = M ≥ 1` rows,
    `xlen = N ≥ 1` columns), the tessellator returns a vertex buffer of
    exactly `(N+1)*2*M` vertices and an index buffer of exactly
    `M*(2*(N+1)+2) - 2` indices, every one of which is strictly below the
    vertex-buffer length. -/
theorem samplePointsToTriangleStrip_counts
    (coords : List Vec3) (xpixdim ypixdim : ℚ) (xlen ylen xax yax : ℕ)
    (hx : 1 ≤ xlen) (hy : 1 ≤ ylen)
    (hlen : coords.length = ylen * xlen) :
    (samplePointsToTriangleStrip coords xpixdim ypixdim
        xlen ylen xax yax).1.length = (xlen + 1) * (2 * ylen) ∧
    (samplePointsToTriangleStrip coords xpixdim ypixdim
        xlen ylen xax yax).2.2.length = ylen * (2 * (xlen + 1) + 2) - 2 ∧
    ∀ i ∈ (samplePointsToTriangleStrip coords xpixdim ypixdim
        xlen ylen xax yax).2.2, i < (xlen + 1) * (2 * ylen) := by
  obtain ⟨hgl, hgr⟩ := reshapeRows_spec xlen (by omega) ylen coords hlen
  simp only [samplePointsToTriangleStrip]
  refine ⟨?_, stripIndices_length xlen ylen hy,
    fun i hi => stripIndices_lt xlen ylen i hi⟩
  have hrows : ∀ w ∈ (reshapeRows ylen xlen coords).flatMap (fun r =>
      [shiftRow yax (-(ypixdim / 2))
        (shiftRow xax (-(xpixdim / 2)) (extendRowWorld xpixdim xax r)),
       shiftRow yax (ypixdim / 2)
        (shiftRow xax (-(xpixdim / 2)) (extendRowWorld xpixdim xax r))]),
      w.length = xlen + 1 := by
    intro w hw
    rw [List.mem_flatMap] at hw
    obtain ⟨r, hr, hmem⟩ := hw
    have hrlen : r.length = xlen := hgr r hr
    have hrne : r ≠ [] := by
      have : 0 < r.length := by omega
      exact List.length_pos.mp this
    rcases List.mem_cons.mp hmem with h | h
    · subst h
      simp [shiftRow, extendRowWorld_length xpixdim xax r hrne, hrlen]
    · rcases List.mem_cons.mp h with h2 | h2
      · subst h2
        simp [shiftRow, extendRowWorld_length xpixdim xax r hrne, hrlen]
      · simp at h2
  rw [flatten_length_const (xlen + 1) _ hrows, length_flatMap_pair, hgl]
  ring

/-- C1 witness: a concrete `1×1` grid: 4 vertices, 4 indices. -/
theorem samplePointsToTriangleStrip_counts_witness :
    (samplePointsToTriangleStrip [⟨0, 0, 0⟩] 1 1 1 1 0 1).1.length =
      (1 + 1) * (2 * 1) ∧
    (samplePointsToTriangleStrip [⟨0, 0, 0⟩] 1 1 1 1 0 1).2.2.length =
      1 * (2 * (1 + 1) + 2) - 2 :=
  let T := samplePointsToTriangleStrip_counts [⟨0, 0, 0⟩] 1 1 1 1 0 1
    (by norm_num) (by norm_num) (by simp)
  ⟨T.1, T.2.1⟩

/-- Vertex `i` of `unitSphere`: the flattened outer products
    `cucv = outer(cosu, cosv)`, `cusv = outer(cosu, sinv)` and
    `sinu.repeat(res)` give, at flat index `i`,
    `(cosu[i/res]*cosv[i%res], cosu[i/res]*sinv[i%res], sinu[i/res])`.
    The four trigonometric sample arrays (`cos`/`sin` of the `res` latitude
    angles over `[-π/2, π/2]` and longitude angles over `[-π, π]`, computed
    identically by `unitSphere` and `fullUnitSphere`) are abstracted as
    `cu su cv sv : ℕ → ℚ`: every property claimed (vertex/index counts,
    index bounds and the indexed/expanded equivalence) is independent of
    the actual float values of those arrays. -/
def unitSphereVertex (res : ℕ) (cu su cv sv : ℕ → ℚ) (i : ℕ) : ℚ × ℚ × ℚ :=
  (cu (i / res) * cv (i % res), cu (i / res) * sv (i % res), su (i / res))

/-- The `res*res` vertex array of `unitSphere` (row-major flattening). -/
def unitSphereVertices (res : ℕ) (cu su cv sv : ℕ → ℚ) :
    List (ℚ × ℚ × ℚ) :=
  (List.range (res * res)).map (unitSphereVertex res cu su cv sv)

/-- Entry `j` of the `unitSphere` index array:
    `tile([0, res, res+1, 1], nquads) + arange(nquads).repeat(4)
    + arange(res-1).repeat(4*(res-1))` gives, at position `j`,
    `quadIdxs[j%4] + j/4 + j/(4*(res-1))`. -/
def unitSphereIndex (res j : ℕ) : ℕ :=
  (if j % 4 = 0 then 0
   else if j % 4 = 1 then res
   else if j % 4 = 2 then res + 1
   else 1) + j / 4 + j / (4 * (res - 1))

/-- The `4*(res-1)^2` quad index array of `unitSphere`. -/
def unitSphereIndices (res : ℕ) : List ℕ :=
  (List.range (4 * (res - 1) * (res - 1))).map (unitSphereIndex res)

/-- `unitSphere` from `routines.py` (trig arrays abstracted): the unique
    vertices and the `GL_QUAD` index list. -/
def unitSphere (res : ℕ) (cu su cv sv : ℕ → ℚ) :
    List (ℚ × ℚ × ℚ) × List ℕ :=
  (unitSphereVertices res cu su cv sv, unitSphereIndices res)

/-- Vertex `j` of `fullUnitSphere`: the interleaved (`::4`, `1::4`, `2::4`,
    `3::4`) columns built from `outer(cosu[:-1], cosv[:-1])`,
    `outer(cosu[1:], cosv[:-1])`, `outer(cosu[1:], cosv[1:])` and
    `outer(cosu[:-1], cosv[1:])` (and likewise with `sinv`), with
    `sinu[:-1]`/`sinu[1:]` repeated: quad `q = j/4` has lattice position
    `(ui, vi) = (q/(res-1), q%(res-1))`. -/
def fullUnitSphereVertex (res : ℕ) (cu su cv sv : ℕ → ℚ) (j : ℕ) :
    ℚ × ℚ × ℚ :=
  let ui := j / 4 / (res - 1)
  let vi := j / 4 % (res - 1)
  if j % 4 = 0 then (cu ui * cv vi, cu ui * sv vi, su ui)
  else if j % 4 = 1 then
    (cu (ui + 1) * cv vi, cu (ui + 1) * sv vi, su (ui + 1))
  else if j % 4 = 2 then
    (cu (ui + 1) * cv (vi + 1), cu (ui + 1) * sv (vi + 1), su (ui + 1))
  else (cu ui * cv (vi + 1), cu ui * sv (vi + 1), su ui)

/-- `fullUnitSphere` from `routines.py` (trig arrays abstracted): all
    `4*(res-1)^2` quad vertices, non-indexed. -/
def fullUnitSphere (res : ℕ) (cu su cv sv : ℕ → ℚ) : List (ℚ × ℚ × ℚ) :=
  (List.range (4 * (res - 1) * (res - 1))).map
    (fullUnitSphereVertex res cu su cv sv)

theorem unitSphereIndex_lt (t j : ℕ) (hj : j < 4 * (t + 1) * (t + 1)) :
    unitSphereIndex (t + 2) j < (t + 2) * (t + 2) := by
  have he : 4 * (t + 1) * (t + 1) = (t + 1) * (t + 1) * 4 := by ring
  have hj2 : j < (t + 1) * (t + 1) * 4 := by omega
  have hq : j / 4 < (t + 1) * (t + 1) :=
    (Nat.div_lt_iff_lt_mul (by omega)).mpr hj2
  have hui : j / 4 / (t + 1) < t + 1 :=
    (Nat.div_lt_iff_lt_mul (by omega)).mpr hq
  have hvi : j / 4 % (t + 1) < t + 1 := Nat.mod_lt _ (by omega)
  have hdm : (t + 1) * (j / 4 / (t + 1)) + j / 4 % (t + 1) = j / 4 :=
    Nat.div_add_mod _ _
  have hthird : j / (4 * (t + 1)) = j / 4 / (t + 1) :=
    (Nat.div_div_eq_div_mul j 4 (t + 1)).symm
  have hsub : t + 2 - 1 = t + 1 := by omega
  have hm1 : (t + 1) * (j / 4 / (t + 1)) ≤ (t + 1) * t :=
    Nat.mul_le_mul_left _ (by omega)
  have hexp : (t + 2) * (t + 2) = (t + 1) * t + 3 * t + 4 := by ring
  have hk : j % 4 = 0 ∨ j % 4 = 1 ∨ j % 4 = 2 ∨ j % 4 = 3 := by omega
  unfold unitSphereIndex
  rw [hsub, hthird]
  rcases hk with hk | hk | hk | hk <;> simp [hk] <;> omega

theorem unitSphereVertex_index (t : ℕ) (cu su cv sv : ℕ → ℚ) (j : ℕ)
    (hj : j < 4 * (t + 1) * (t + 1)) :
    unitSphereVertex (t + 2) cu su cv sv (unitSphereIndex (t + 2) j) =
      fullUnitSphereVertex (t + 2) cu su cv sv j := by
  have he : 4 * (t + 1) * (t + 1) = (t + 1) * (t + 1) * 4 := by ring
  have hj2 : j < (t + 1) * (t + 1) * 4 := by omega
  have hq : j / 4 < (t + 1) * (t + 1) :=
    (Nat.div_lt_iff_lt_mul (by omega)).mpr hj2
  have hui : j / 4 / (t + 1) < t + 1 :=
    (Nat.div_lt_iff_lt_mul (by omega)).mpr hq
  have hvi : j / 4 % (t + 1) < t + 1 := Nat.mod_lt _ (by omega)
  have hdm : (t + 1) * (j / 4 / (t + 1)) + j / 4 % (t + 1) = j / 4 :=
    Nat.div_add_mod _ _
  have hthird : j / (4 * (t + 1)) = j / 4 / (t + 1) :=
    (Nat.div_div_eq_div_mul j 4 (t + 1)).symm
  have hsub : t + 2 - 1 = t + 1 := by omega
  have hdiv0 : ∀ a b : ℕ, b < t + 2 → ((t + 2) * a + b) / (t + 2) = a := by
    intro a b hb
    rw [Nat.mul_add_div (by omega)]
    simp [Nat.div_eq_of_lt hb]
  have hmod0 : ∀ a b : ℕ, b < t + 2 → ((t + 2) * a + b) % (t + 2) = b := by
    intro a b hb
    rw [Nat.mul_add_mod]
    exact Nat.mod_eq_of_lt hb
  have hring : ∀ a : ℕ, (t + 2) * a = (t + 1) * a + a := by intro a; ring
  have hk : j % 4 = 0 ∨ j % 4 = 1 ∨ j % 4 = 2 ∨ j % 4 = 3 := by omega
  unfold unitSphereIndex fullUnitSphereVertex
  rw [hsub, hthird]
  rcases hk with hk | hk | hk | hk <;> simp only [hk] <;> norm_num
  · have hV : j / 4 + j / 4 / (t + 1) =
        (t + 2) * (j / 4 / (t + 1)) + j / 4 % (t + 1) := by
      have := hring (j / 4 / (t + 1))
      omega
    rw [hV, unitSphereVertex,
        hdiv0 _ _ (by omega), hmod0 _ _ (by omega)]
  · have hV : t + 2 + j / 4 + j / 4 / (t + 1) =
        (t + 2) * (j / 4 / (t + 1) + 1) + j / 4 % (t + 1) := by
      have h1 := hring (j / 4 / (t + 1))
      have h2 : (t + 2) * (j / 4 / (t + 1) + 1) =
          (t + 2) * (j / 4 / (t + 1)) + (t + 2) := by ring
      omega
    rw [hV, unitSphereVertex,
        hdiv0 _ _ (by omega), hmod0 _ _ (by omega)]
  · have hV : t + 2 + 1 + j / 4 + j / 4 / (t + 1) =
        (t + 2) * (j / 4 / (t + 1) + 1) + (j / 4 % (t + 1) + 1) := by
      have h1 := hring (j / 4 / (t + 1))
      have h2 : (t + 2) * (j / 4 / (t + 1) + 1) =
          (t + 2) * (j / 4 / (t + 1)) + (t + 2) := by ring
      omega
    rw [hV, unitSphereVertex,
        hdiv0 _ _ (by omega), hmod0 _ _ (by omega)]
  · have hV : 1 + j / 4 + j / 4 / (t + 1) =
        (t + 2) * (j / 4 / (t + 1)) + (j / 4 % (t + 1) + 1) := by
      have := hring (j / 4 / (t + 1))
      omega
    rw [hV, unitSphereVertex,
        hdiv0 _ _ (by omega), hmod0 _ _ (by omega)]

theorem getD_map_range {β : Type} [Inhabited β] (f : ℕ → β) (n i : ℕ)
    (h : i < n) : ((List.range n).map f).getD i default = f i := by
  rw [getD_map_lt f (List.range n) i (by simpa using h)]
  congr 1
  rw [List.getD_eq_getElem _ _ (by simpa using h)]
  simp

/-- C8: for `res ≥ 2` (and any values of the shared trigonometric sample
    arrays), `unitSphere` returns exactly `res^2` vertices and
    `4*(res-1)^2` indices, each index below `res^2`; `fullUnitSphere`
    returns exactly `4*(res-1)^2` vertices; and expanding `unitSphere`'s
    vertex array through its index array reproduces, element for element
    and in the same order, `fullUnitSphere`'s vertex array. -/
theorem unitSphere_counts_and_equiv (res : ℕ) (cu su cv sv : ℕ → ℚ)
    (hres : 2 ≤ res) :
    (unitSphere res cu su cv sv).1.length = res * res ∧
    (unitSphere res cu su cv sv).2.length = 4 * (res - 1) * (res - 1) ∧
    (∀ i ∈ (unitSphere res cu su cv sv).2, i < res * res) ∧
    (fullUnitSphere res cu su cv sv).length = 4 * (res - 1) * (res - 1) ∧
    (unitSphere res cu su cv sv).2.map
        (fun i => (unitSphere res cu su cv sv).1.getD i default) =
      fullUnitSphere res cu su cv sv := by
  obtain ⟨t, rfl⟩ : ∃ t, res = t + 2 := ⟨res - 2, by omega⟩
  have hsub : t + 2 - 1 = t + 1 := by omega
  refine ⟨by simp [unitSphere, unitSphereVertices],
    by simp [unitSphere, unitSphereIndices],
    ?_, by simp [fullUnitSphere], ?_⟩
  · intro i hi
    simp only [unitSphere, unitSphereIndices, hsub, List.mem_map,
      List.mem_range] at hi
    obtain ⟨j, hj, rfl⟩ := hi
    exact unitSphereIndex_lt t j hj
  · simp only [unitSphere, unitSphereIndices, unitSphereVertices,
      fullUnitSphere, hsub, List.map_map]
    apply List.map_congr_left
    intro j hj
    rw [List.mem_range] at hj
    simp only [Function.comp]
    rw [getD_map_range _ _ _ (unitSphereIndex_lt t j hj),
        unitSphereVertex_index t cu su cv sv j hj]

/-- The natural-number inclusion into `ℚ`, standing in for a concrete
    choice of trigonometric sample array in the sphere witness. -/
def natToQ : ℕ → ℚ := fun n => (n : ℚ)

/-- C8 witness: at `res = 2` (with a concrete choice of sample arrays) the
    sphere tessellators return 4 vertices, 4 indices and 4 expanded
    vertices. -/
theorem unitSphere_counts_and_equiv_witness :
    (unitSphere 2 natToQ natToQ natToQ natToQ).1.length = 2 * 2 ∧
    (unitSphere 2 natToQ natToQ natToQ natToQ).2.length =
      4 * (2 - 1) * (2 - 1) ∧
    (fullUnitSphere 2 natToQ natToQ natToQ natToQ).length =
      4 * (2 - 1) * (2 - 1) :=
  let T := unitSphere_counts_and_equiv 2 natToQ natToQ natToQ natToQ
    (by norm_num)
  ⟨T.1, T.2.1, T.2.2.2.1⟩

/-- `int(np.round(q))`: round half to even (numpy banker's rounding). -/
def npRound (q : ℚ) : ℤ :=
  if q - ⌊q⌋ < 1 / 2 then ⌊q⌋
  else if 1 / 2 < q - ⌊q⌋ then ⌊q⌋ + 1
  else if ⌊q⌋ % 2 = 0 then ⌊q⌋ else ⌊q⌋ + 1

/-- Every `step`-th element of `l` starting from its head (`l[::step]`,
    `step ≥ 1`; `step = 0` behaves as `1`, unreachable from `subsample`
    whose steps are clamped to `≥ 1`). -/
def strideGo {α : Type} (step : ℕ) : List α → List α
  | [] => []
  | x :: rest => x :: strideGo step (rest.drop (step - 1))
termination_by l => l.length
decreasing_by simp [List.length_drop]; omega

/-- Python slicing `l[start::step]`. -/
def stride {α : Type} (start step : ℕ) (l : List α) : List α :=
  strideGo step (l.drop start)

/-- `subsample` from `routines.py` (the 3D path; for a 4D input the source
    selects the requested `volume` during slicing, which reduces to this 3D
    case, and `pixdim=None` defaults to `(1,1,1)` at the call site).
    Integer strides are `int(np.round(resolution / pixdim))` clamped below
    by 1; start offsets are `int(np.floor(step / 2))` clamped above by
    `shape - 1`; the result is the strided sub-array plus the metadata. -/
def subsample (data : List (List (List ℚ))) (resolution : ℚ)
    (pixdim : ℚ × ℚ × ℚ) :
    List (List (List ℚ)) × (ℕ × ℕ × ℕ) × (ℕ × ℕ × ℕ) :=
  let xstep0 := npRound (resolution / pixdim.1)
  let ystep0 := npRound (resolution / pixdim.2.1)
  let zstep0 := npRound (resolution / pixdim.2.2)
  let xstep := (if xstep0 < 1 then 1 else xstep0).toNat
  let ystep := (if ystep0 < 1 then 1 else ystep0).toNat
  let zstep := (if zstep0 < 1 then 1 else zstep0).toNat
  let xstart0 := xstep / 2
  let ystart0 := ystep / 2
  let zstart0 := zstep / 2
  let shape0 := data.length
  let shape1 := (data.headD []).length
  let shape2 := ((data.headD []).headD []).length
  let xstart := if xstart0 ≥ shape0 then shape0 - 1 else xstart0
  let ystart := if ystart0 ≥ shape1 then shape1 - 1 else ystart0
  let zstart := if zstart0 ≥ shape2 then shape2 - 1 else zstart0
  let sample := (stride xstart xstep data).map
    (fun pl => (stride ystart ystep pl).map (fun row => stride zstart zstep row))
  (sample, (xstart, ystart, zstart), (xstep, ystep, zstep))

theorem strideGo_length {α : Type} (step : ℕ) (hs : 1 ≤ step) :
    ∀ l : List α, (strideGo step l).length = (l.length + step - 1) / step
  | [] => by
    simp [strideGo]
    rw [Nat.div_eq_of_lt (by omega)]
  | x :: rest => by
    rw [strideGo]
    simp only [List.length_cons, strideGo_length step hs (rest.drop (step - 1)),
      List.length_drop]
    rcases le_or_lt (step - 1) rest.length with hle | hlt
    · have h1 : rest.length - (step - 1) + step - 1 = rest.length := by omega
      have h2 : rest.length + 1 + step - 1 = rest.length + step := by omega
      rw [h1, h2, Nat.add_div_right _ (by omega)]
    · have h1 : rest.length - (step - 1) = 0 := by omega
      have h2 : rest.length + 1 + step - 1 = rest.length + step := by omega
      rw [h1, h2, Nat.add_div_right _ (by omega)]
      rw [Nat.div_eq_of_lt (by omega), Nat.div_eq_of_lt (by omega)]
termination_by l => l.length
decreasing_by simp [List.length_drop]; omega

theorem strideGo_getD {α : Type} (step : ℕ) (hs : 1 ≤ step) (d : α) :
    ∀ (i : ℕ) (l : List α), i * step < l.length →
      (strideGo step l).getD i d = l.getD (i * step) d
  | 0, [], h => by simp at h
  | 0, _ :: _, _ => by rw [strideGo]; simp
  | i + 1, [], h => by simp at h
  | i + 1, x :: rest, h => by
    have hexp : (i + 1) * step = i * step + step := by ring
    have hlen : i * step < (rest.drop (step - 1)).length := by
      rw [List.length_drop]
      simp only [List.length_cons] at h
      omega
    rw [strideGo]
    have hcons : (x :: strideGo step (rest.drop (step - 1))).getD (i + 1) d =
        (strideGo step (rest.drop (step - 1))).getD i d := by
      simp [List.getD_cons_succ]
    rw [hcons, strideGo_getD step hs d i (rest.drop (step - 1)) hlen]
    rw [List.getD_eq_getElem?_getD, List.getElem?_drop,
        ← List.getD_eq_getElem?_getD]
    have harg : step - 1 + i * step = (i + 1) * step - 1 := by omega
    rw [harg]
    have hpos : 1 ≤ (i + 1) * step := by omega
    obtain ⟨m, hm⟩ : ∃ m, (i + 1) * step = m + 1 := ⟨(i + 1) * step - 1, by omega⟩
    rw [hm]
    simp [List.getD_cons_succ]

theorem stride_length_lt {α : Type} (start step i : ℕ) (hs : 1 ≤ step)
    (l : List α) (h : start + i * step < l.length) :
    i < (stride start step l).length := by
  unfold stride
  rw [strideGo_length step hs, List.length_drop]
  have hmul : (i + 1) * step = i * step + step := by ring
  have : i + 1 ≤ (l.length - start + step - 1) / step := by
    rw [Nat.le_div_iff_mul_le (by omega)]
    omega
  omega

theorem stride_getD {α : Type} (start step i : ℕ) (hs : 1 ≤ step) (d : α)
    (l : List α) (h : start + i * step < l.length) :
    (stride start step l).getD i d = l.getD (start + i * step) d := by
  unfold stride
  rw [strideGo_getD step hs d i _ (by rw [List.length_drop]; omega)]
  rw [List.getD_eq_getElem?_getD, List.getElem?_drop,
      ← List.getD_eq_getElem?_getD]

theorem getD_map_of_lt {α β : Type} (f : α → β) (d : β) (e : α) :
    ∀ (l : List α) (k : ℕ), k < l.length →
      (l.map f).getD k d = f (l.getD k e)
  | _ :: _, 0, _ => rfl
  | _ :: t, k + 1, h => getD_map_of_lt f d e t k (by simpa using h)
  | [], _, h => absurd h (by simp)

/-- C9: `subsample` computes per-axis integer steps
    `round(resolution/pixdim)` clamped to `≥ 1`, start offsets
    `⌊step/2⌋` clamped to `≤ shape-1`, and returns `data[start::step]`
    along each axis together with `(start, step)`; in particular, for
    `pixdim = (2,2,2)` and `resolution = 4` the step is `2` and the start
    offset `1` on each axis (unless clamped by a smaller extent). -/
theorem subsample_spec
    (data : List (List (List ℚ))) (resolution : ℚ) (pixdim : ℚ × ℚ × ℚ)
    (sample : List (List (List ℚ))) (xs ys zs xp yp zp : ℕ)
    (hd0 : 0 < data.length)
    (hd1 : 0 < (data.headD []).length)
    (hd2 : 0 < ((data.headD []).headD []).length)
    (h : subsample data resolution pixdim =
      (sample, (xs, ys, zs), (xp, yp, zp))) :
    xp = (max 1 (npRound (resolution / pixdim.1))).toNat ∧
    yp = (max 1 (npRound (resolution / pixdim.2.1))).toNat ∧
    zp = (max 1 (npRound (resolution / pixdim.2.2))).toNat ∧
    xs = min (xp / 2) (data.length - 1) ∧
    ys = min (yp / 2) ((data.headD []).length - 1) ∧
    zs = min (zp / 2) (((data.headD []).headD []).length - 1) ∧
    (∀ i j k : ℕ,
      xs + i * xp < data.length →
      ys + j * yp < (data.getD (xs + i * xp) []).length →
      zs + k * zp <
        ((data.getD (xs + i * xp) []).getD (ys + j * yp) []).length →
      ((sample.getD i []).getD j []).getD k 0 =
        ((data.getD (xs + i * xp) []).getD (ys + j * yp) []).getD
          (zs + k * zp) 0) ∧
    (resolution = 4 ∧ pixdim = (2, 2, 2) →
      xp = 2 ∧ yp = 2 ∧ zp = 2 ∧
      (2 ≤ data.length → xs = 1) ∧
      (2 ≤ (data.headD []).length → ys = 1) ∧
      (2 ≤ ((data.headD []).headD []).length → zs = 1)) := by
  have hxpE : (if npRound (resolution / pixdim.1) < 1 then (1 : ℤ)
      else npRound (resolution / pixdim.1)).toNat = xp := by
    have h1 : (subsample data resolution pixdim).2.2.1 = xp := by rw [h]
    simpa only [subsample] using h1
  have hypE : (if npRound (resolution / pixdim.2.1) < 1 then (1 : ℤ)
      else npRound (resolution / pixdim.2.1)).toNat = yp := by
    have h1 : (subsample data resolution pixdim).2.2.2.1 = yp := by rw [h]
    simpa only [subsample] using h1
  have hzpE : (if npRound (resolution / pixdim.2.2) < 1 then (1 : ℤ)
      else npRound (resolution / pixdim.2.2)).toNat = zp := by
    have h1 : (subsample data resolution pixdim).2.2.2.2 = zp := by rw [h]
    simpa only [subsample] using h1
  have hmaxEq : ∀ a : ℤ, (if a < 1 then (1 : ℤ) else a).toNat =
      (max 1 a).toNat := by
    intro a
    rcases le_or_lt 1 a with h1 | h1
    · rw [if_neg (by omega), max_eq_right h1]
    · rw [if_pos h1, max_eq_left (by omega)]
  have hxp : xp = (max 1 (npRound (resolution / pixdim.1))).toNat := by
    rw [← hxpE, hmaxEq]
  have hyp : yp = (max 1 (npRound (resolution / pixdim.2.1))).toNat := by
    rw [← hypE, hmaxEq]
  have hzp : zp = (max 1 (npRound (resolution / pixdim.2.2))).toNat := by
    rw [← hzpE, hmaxEq]
  have hxp1 : 1 ≤ xp := by
    rw [hxp]
    have h1 : (1 : ℤ) ≤ max 1 (npRound (resolution / pixdim.1)) :=
      le_max_left _ _
    omega
  have hyp1 : 1 ≤ yp := by
    rw [hyp]
    have h1 : (1 : ℤ) ≤ max 1 (npRound (resolution / pixdim.2.1)) :=
      le_max_left _ _
    omega
  have hzp1 : 1 ≤ zp := by
    rw [hzp]
    have h1 : (1 : ℤ) ≤ max 1 (npRound (resolution / pixdim.2.2)) :=
      le_max_left _ _
    omega
  have hxsE : (if xp / 2 ≥ data.length then data.length - 1 else xp / 2)
      = xs := by
    have h1 : (subsample data resolution pixdim).2.1.1 = xs := by rw [h]
    simpa only [subsample, hxpE] using h1
  have hysE : (if yp / 2 ≥ (data.headD []).length
      then (data.headD []).length - 1 else yp / 2) = ys := by
    have h1 : (subsample data resolution pixdim).2.1.2.1 = ys := by rw [h]
    simpa only [subsample, hypE] using h1
  have hzsE : (if zp / 2 ≥ ((data.headD []).headD []).length
      then ((data.headD []).headD []).length - 1 else zp / 2) = zs := by
    have h1 : (subsample data resolution pixdim).2.1.2.2 = zs := by rw [h]
    simpa only [subsample, hzpE] using h1
  have hxs : xs = min (xp / 2) (data.length - 1) := by
    rw [← hxsE]
    rcases le_or_lt data.length (xp / 2) with h1 | h1
    · rw [if_pos h1, min_eq_right (by omega)]
    · rw [if_neg (by omega), min_eq_left (by omega)]
  have hys : ys = min (yp / 2) ((data.headD []).length - 1) := by
    rw [← hysE]
    rcases le_or_lt (data.headD []).length (yp / 2) with h1 | h1
    · rw [if_pos h1, min_eq_right (by omega)]
    · rw [if_neg (by omega), min_eq_left (by omega)]
  have hzs : zs = min (zp / 2) (((data.headD []).headD []).length - 1) := by
    rw [← hzsE]
    rcases le_or_lt ((data.headD []).headD []).length (zp / 2) with h1 | h1
    · rw [if_pos h1, min_eq_right (by omega)]
    · rw [if_neg (by omega), min_eq_left (by omega)]
  have hsam : (stride xs xp data).map
      (fun pl => (stride ys yp pl).map (fun row => stride zs zp row)) =
      sample := by
    have h1 : (subsample data resolution pixdim).1 = sample := by rw [h]
    simpa only [subsample, hxpE, hypE, hzpE, hxsE, hysE, hzsE] using h1
  refine ⟨hxp, hyp, hzp, hxs, hys, hzs, ?_, ?_⟩
  · intro i j k hi hj hk
    rw [← hsam,
        getD_map_of_lt _ ([] : List (List ℚ)) ([] : List (List ℚ)) _ i
          (stride_length_lt xs xp i hxp1 data hi),
        stride_getD xs xp i hxp1 _ data hi,
        getD_map_of_lt _ ([] : List ℚ) ([] : List ℚ) _ j
          (stride_length_lt ys yp j hyp1 _ hj),
        stride_getD ys yp j hyp1 _ _ hj,
        stride_getD zs zp k hzp1 _ _ hk]
  · rintro ⟨hr, hpd⟩
    subst hr; subst hpd
    have hround : npRound ((4 : ℚ) / 2) = 2 := by
      norm_num [npRound]
    simp only [hround] at hxp hyp hzp
    have hxp2 : xp = 2 := by rw [hxp]; rfl
    have hyp2 : yp = 2 := by rw [hyp]; rfl
    have hzp2 : zp = 2 := by rw [hzp]; rfl
    refine ⟨hxp2, hyp2, hzp2, ?_, ?_, ?_⟩
    · intro hlen; rw [hxs, hxp2]; omega
    · intro hlen; rw [hys, hyp2]; omega
    · intro hlen; rw [hzs, hzp2]; omega

/-- C9 witness: a concrete `2×2×2` volume with `pixdim = (2,2,2)` and
    `resolution = 4`: step `2` and start offset `1` per axis, and the
    sub-array keeps the single element at index `(1,1,1)`. -/
theorem subsample_spec_witness :
    (2 : ℕ) = (max 1 (npRound ((4 : ℚ) /
      (((2 : ℚ), (2 : ℚ), (2 : ℚ)) : ℚ × ℚ × ℚ).1))).toNat ∧
    (1 : ℕ) = min (2 / 2)
      (([[[(1 : ℚ), 2], [3, 4]], [[5, 6], [7, 8]]] :
        List (List (List ℚ))).length - 1) :=
  let T := subsample_spec [[[1, 2], [3, 4]], [[5, 6], [7, 8]]] 4 (2, 2, 2)
    [[[8]]] 1 1 1 2 2 2
    (by norm_num) (by norm_num) (by norm_num)
    (by
      have ht : Int.toNat (2 : ℤ) = 2 := by decide
      norm_num [subsample, npRound, stride, strideGo, Prod.mk.injEq, ht])
  ⟨T.1, T.2.2.2.1⟩
